import Mathlib

/-
Verification of the semantic query-matching subsystem of the
Campus-Navigation backend (backend/chatbot/semantic_model.py).

The development is a shallow embedding of the Python module:

* `bestLoop` / `find_best_match` embed the scan of `find_best_match`
  (the `for question in QUESTIONS` loop with its strict-improvement
  update and the final `> 0.7` threshold test), parametrised by the
  embedding function and the cosine-similarity function, which are
  external collaborators (the pretrained transformer model).
* `ChatState` / `load_model` / `load_questions` / `get_embedding_st` /
  `find_best_match_st` embed the module-level lazy singleton state
  (`_tokenizer`, `_model`, `_QUESTIONS`) with explicit state passing,
  instrumented with load counters, a cosine-call counter and a log of
  embedding requests.
* `find_best_match_exc` / `excLoop` embed the same control flow over
  fallible collaborators (`Except`), reflecting the absence of any
  try/except in the module: errors short-circuit.
* `meanPool` / `get_embedding` embed the pooling arithmetic of
  `get_embedding` (`output.last_hidden_state.mean(dim=1)`), with the
  model run under an explicit `GradMode.disabled` flag mirroring
  `with torch.no_grad()`.

Similarity scores are modelled as rationals; the threshold literal
`0.7` is `(7 : ℚ) / 10`.
-/

namespace SemanticModel

/-- One pass of the `for question in QUESTIONS` loop of
`find_best_match`: `sim q` is the cosine similarity of the fixed user
embedding with the embedding of `q`; the accumulator `(best, high)` is
`(best_match, highest_similarity)` and is replaced exactly when
`similarity > highest_similarity`. -/
def bestLoop (sim : String → ℚ) : List String → Option String → ℚ → Option String × ℚ
  | [], best, high => (best, high)
  | q :: rest, best, high =>
    if high < sim q then bestLoop sim rest (some q) (sim q)
    else bestLoop sim rest best high

/-- Embedding of `find_best_match(user_query)` with the loaded question
list and the embedding/cosine collaborators passed explicitly:
`best_match = None`, `highest_similarity = -1`, scan all questions,
return `best_match if highest_similarity > 0.7 else None`. -/
def find_best_match {Emb : Type} (embed : String → Emb) (cos : Emb → Emb → ℚ)
    (questions : List String) (user_query : String) : Option String :=
  let user_embedding := embed user_query
  let r := bestLoop (fun q => cos user_embedding (embed q)) questions none (-1)
  if (7 : ℚ) / 10 < r.2 then r.1 else none

/-- The tracked highest similarity never drops below its initial value. -/
theorem bestLoop_init_le (sim : String → ℚ) :
    ∀ (l : List String) (best : Option String) (high : ℚ),
      high ≤ (bestLoop sim l best high).2 := by
  intro l
  induction l with
  | nil => intro best high; simp [bestLoop]
  | cons q rest ih =>
    intro best high
    by_cases h : high < sim q
    · simpa [bestLoop, h] using le_trans (le_of_lt h) (ih (some q) (sim q))
    · simpa [bestLoop, h] using ih best high

/-- Every scanned question's similarity is bounded by the final tracked
highest similarity. -/
theorem bestLoop_mem_le (sim : String → ℚ) :
    ∀ (l : List String) (best : Option String) (high : ℚ) (r : String),
      r ∈ l → sim r ≤ (bestLoop sim l best high).2 := by
  intro l
  induction l with
  | nil => intro best high r hr; cases hr
  | cons q rest ih =>
    intro best high r hr
    by_cases h : high < sim q
    · rcases List.mem_cons.mp hr with rfl | hr'
      · simpa [bestLoop, h] using bestLoop_init_le sim rest (some r) (sim r)
      · simpa [bestLoop, h] using ih (some q) (sim q) r hr'
    · rcases List.mem_cons.mp hr with rfl | hr'
      · have : sim r ≤ high := not_lt.mp h
        simpa [bestLoop, h] using le_trans this (bestLoop_init_le sim rest best high)
      · simpa [bestLoop, h] using ih best high r hr'

/-- If the initial value and all scanned similarities are at most `c`,
the final tracked highest similarity is at most `c`. -/
theorem bestLoop_le_of_all (sim : String → ℚ) :
    ∀ (l : List String) (best : Option String) (high c : ℚ),
      high ≤ c → (∀ r ∈ l, sim r ≤ c) → (bestLoop sim l best high).2 ≤ c := by
  intro l
  induction l with
  | nil => intro best high c hh _; simpa [bestLoop] using hh
  | cons q rest ih =>
    intro best high c hh hall
    by_cases h : high < sim q
    · have hq : sim q ≤ c := hall q (List.mem_cons_self q rest)
      simpa [bestLoop, h] using ih (some q) (sim q) c hq (fun r hr => hall r (List.mem_cons_of_mem q hr))
    · simpa [bestLoop, h] using ih best high c hh (fun r hr => hall r (List.mem_cons_of_mem q hr))

/-- Once a best match is tracked it is never dropped back to `none`. -/
theorem bestLoop_isSome_of_some (sim : String → ℚ) :
    ∀ (l : List String) (b : String) (high : ℚ),
      ((bestLoop sim l (some b) high).1).isSome := by
  intro l
  induction l with
  | nil => intro b high; simp [bestLoop]
  | cons q rest ih =>
    intro b high
    by_cases h : high < sim q
    · simpa [bestLoop, h] using ih q (sim q)
    · simpa [bestLoop, h] using ih b high

/-- If some scanned question strictly improves on the initial value, the
loop ends with a tracked best match. -/
theorem bestLoop_some_of_exists (sim : String → ℚ) :
    ∀ (l : List String) (best : Option String) (high : ℚ),
      (∃ r ∈ l, high < sim r) → ((bestLoop sim l best high).1).isSome := by
  intro l
  induction l with
  | nil => intro best high h; rcases h with ⟨r, hr, _⟩; cases hr
  | cons q rest ih =>
    intro best high h
    by_cases hq : high < sim q
    · simpa [bestLoop, hq] using bestLoop_isSome_of_some sim rest q (sim q)
    · rcases h with ⟨r, hr, hgt⟩
      rcases List.mem_cons.mp hr with rfl | hr'
      · exact absurd hgt hq
      · simpa [bestLoop, hq] using ih best high ⟨r, hr', hgt⟩

/-- Full characterisation of a `some` result of the loop: either the
returned question was picked from the scanned list — it attains the
final highest similarity, strictly improves on the initial value,
bounds every scanned similarity, and every question before it scores
strictly less — or it was the incoming accumulator and nothing in the
list strictly improved on the initial value. -/
theorem bestLoop_spec (sim : String → ℚ) :
    ∀ (l : List String) (best : Option String) (high : ℚ) (q : String) (h : ℚ),
      bestLoop sim l best high = (some q, h) →
      (q ∈ l ∧ sim q = h ∧ high < h ∧ (∀ r ∈ l, sim r ≤ h) ∧
        ∃ pre post, l = pre ++ q :: post ∧ ∀ p ∈ pre, sim p < sim q)
      ∨ (best = some q ∧ h = high ∧ ∀ r ∈ l, sim r ≤ high) := by
  intro l
  induction l with
  | nil =>
    intro best high q h hEq
    rw [bestLoop, Prod.mk.injEq] at hEq
    exact Or.inr ⟨hEq.1, hEq.2.symm, by simp⟩
  | cons q' rest ih =>
    intro best high q h hEq
    by_cases hc : high < sim q'
    · rw [bestLoop, if_pos hc] at hEq
      rcases ih (some q') (sim q') q h hEq with
        ⟨hmem, hsq, hlt, hall, pre, post, hsplit, hpre⟩ | ⟨hb, hh, hall⟩
      · refine Or.inl ⟨List.mem_cons_of_mem q' hmem, hsq, lt_trans hc hlt, ?_, q' :: pre, post, ?_, ?_⟩
        · intro r hr
          rcases List.mem_cons.mp hr with rfl | hr'
          · exact le_of_lt hlt
          · exact hall r hr'
        · rw [hsplit]; rfl
        · intro p hp
          rcases List.mem_cons.mp hp with rfl | hp'
          · rw [hsq]; exact hlt
          · exact hpre p hp'
      · injection hb with hb'
        subst hb'
        refine Or.inl ⟨List.mem_cons_self q' rest, hh.symm, hh ▸ hc, ?_, [], rest, rfl, by simp⟩
        intro r hr
        rcases List.mem_cons.mp hr with rfl | hr'
        · exact le_of_eq hh.symm
        · exact le_trans (hall r hr') (le_of_eq hh.symm)
    · rw [bestLoop, if_neg hc] at hEq
      rcases ih best high q h hEq with
        ⟨hmem, hsq, hlt, hall, pre, post, hsplit, hpre⟩ | ⟨hb, hh, hall⟩
      · have hq' : sim q' ≤ high := not_lt.mp hc
        refine Or.inl ⟨List.mem_cons_of_mem q' hmem, hsq, hlt, ?_, q' :: pre, post, ?_, ?_⟩
        · intro r hr
          rcases List.mem_cons.mp hr with rfl | hr'
          · exact le_trans hq' (le_of_lt hlt)
          · exact hall r hr'
        · rw [hsplit]; rfl
        · intro p hp
          rcases List.mem_cons.mp hp with rfl | hp'
          · rw [hsq]; exact lt_of_le_of_lt hq' hlt
          · exact hpre p hp'
      · refine Or.inr ⟨hb, hh, ?_⟩
        intro r hr
        rcases List.mem_cons.mp hr with rfl | hr'
        · exact not_lt.mp hc
        · exact hall r hr'

/-- Unfolding equation for `find_best_match`. -/
theorem find_best_match_eq {Emb : Type} (embed : String → Emb) (cos : Emb → Emb → ℚ)
    (qs : List String) (query : String) :
    find_best_match embed cos qs query =
      (if (7 : ℚ) / 10 < (bestLoop (fun r => cos (embed query) (embed r)) qs none (-1)).2
       then (bestLoop (fun r => cos (embed query) (embed r)) qs none (-1)).1
       else none) := rfl

/-- A returned match is a scanned question, clears the threshold
strictly, attains the maximum similarity, and is preceded only by
strictly worse questions. -/
theorem find_best_match_some_spec {Emb : Type} (embed : String → Emb) (cos : Emb → Emb → ℚ)
    (qs : List String) (query q : String)
    (h : find_best_match embed cos qs query = some q) :
    q ∈ qs ∧ (7 : ℚ) / 10 < cos (embed query) (embed q) ∧
      (∀ r ∈ qs, cos (embed query) (embed r) ≤ cos (embed query) (embed q)) ∧
      ∃ pre post, qs = pre ++ q :: post ∧
        ∀ p ∈ pre, cos (embed query) (embed p) < cos (embed query) (embed q) := by
  rcases hbl : bestLoop (fun r => cos (embed query) (embed r)) qs none (-1) with ⟨b, hi⟩
  rw [find_best_match_eq, hbl] at h
  by_cases hcond : (7 : ℚ) / 10 < hi
  · rw [if_pos hcond] at h
    subst h
    rcases bestLoop_spec (fun r => cos (embed query) (embed r)) qs none (-1) q hi hbl with
      ⟨hmem, hsq, _, hall, pre, post, hsplit, hpre⟩ | ⟨hb, _, _⟩
    · refine ⟨hmem, hsq ▸ hcond, fun r hr => le_trans (hall r hr) (le_of_eq hsq.symm), pre, post, hsplit, hpre⟩
    · cases hb
  · rw [if_neg hcond] at h
    cases h

/-- If some question clears the threshold strictly, a match is returned. -/
theorem find_best_match_some_of_exists {Emb : Type} (embed : String → Emb) (cos : Emb → Emb → ℚ)
    (qs : List String) (query : String)
    (h : ∃ r ∈ qs, (7 : ℚ) / 10 < cos (embed query) (embed r)) :
    ∃ q, find_best_match embed cos qs query = some q := by
  rcases h with ⟨r, hr, hgt⟩
  rcases hbl : bestLoop (fun s => cos (embed query) (embed s)) qs none (-1) with ⟨b, hi⟩
  have hsome : b.isSome := by
    have := bestLoop_some_of_exists (fun s => cos (embed query) (embed s)) qs none (-1)
      ⟨r, hr, lt_trans (by norm_num) hgt⟩
    rwa [hbl] at this
  rcases Option.isSome_iff_exists.mp hsome with ⟨q, rfl⟩
  have hle : cos (embed query) (embed r) ≤ hi := by
    have := bestLoop_mem_le (fun s => cos (embed query) (embed s)) qs none (-1) r hr
    rwa [hbl] at this
  refine ⟨q, ?_⟩
  rw [find_best_match_eq, hbl]
  exact if_pos (lt_of_lt_of_le hgt hle)

/-- If no question clears the threshold strictly, no match is returned. -/
theorem find_best_match_none_of_le {Emb : Type} (embed : String → Emb) (cos : Emb → Emb → ℚ)
    (qs : List String) (query : String)
    (h : ∀ r ∈ qs, cos (embed query) (embed r) ≤ (7 : ℚ) / 10) :
    find_best_match embed cos qs query = none := by
  rcases hbl : bestLoop (fun s => cos (embed query) (embed s)) qs none (-1) with ⟨b, hi⟩
  have hle : hi ≤ (7 : ℚ) / 10 := by
    have := bestLoop_le_of_all (fun s => cos (embed query) (embed s)) qs none (-1) ((7 : ℚ) / 10)
      (by norm_num) h
    rwa [hbl] at this
  rw [find_best_match_eq, hbl]
  exact if_neg (not_lt.mpr hle)

/-- Claim C2: for a non-empty reference set, `find_best_match` returns
the best-matching reference question exactly when the maximum cosine
similarity strictly exceeds 0.7, and returns the no-match sentinel
`none` when every similarity is at most 0.7. -/
theorem find_best_match_threshold_iff {Emb : Type} (embed : String → Emb) (cos : Emb → Emb → ℚ)
    (qs : List String) (query : String) (_hne : qs ≠ []) :
    ((∃ q, find_best_match embed cos qs query = some q ∧ q ∈ qs ∧
        ∀ r ∈ qs, cos (embed query) (embed r) ≤ cos (embed query) (embed q))
      ↔ ∃ r ∈ qs, (7 : ℚ) / 10 < cos (embed query) (embed r))
    ∧ ((∀ r ∈ qs, cos (embed query) (embed r) ≤ (7 : ℚ) / 10) →
        find_best_match embed cos qs query = none) := by
  constructor
  · constructor
    · rintro ⟨q, hq, _, _⟩
      rcases find_best_match_some_spec embed cos qs query q hq with ⟨hmem, hthr, _, _⟩
      exact ⟨q, hmem, hthr⟩
    · intro h
      rcases find_best_match_some_of_exists embed cos qs query h with ⟨q, hq⟩
      rcases find_best_match_some_spec embed cos qs query q hq with ⟨hmem, _, hmax, _⟩
      exact ⟨q, hq, hmem, hmax⟩
  · exact find_best_match_none_of_le embed cos qs query

/-- A constant cosine collaborator returning exactly the threshold. -/
def constCos : String → String → ℚ := fun _ _ => 7 / 10

/-- A cosine collaborator that scores 1 on equal strings and 0 else. -/
def eqCos : String → String → ℚ := fun a b => if a = b then 1 else 0

/-- A constant cosine collaborator producing a two-way tie above the
threshold. -/
def tieCos : String → String → ℚ := fun _ _ => 4 / 5

/-- Claim C1, counterexample: with a single reference question whose
cosine similarity to the query is exactly 0.7, the maximum similarity
is at least 0.7, yet `find_best_match` returns the no-match sentinel:
the code accepts only on strict excess of the threshold. -/
theorem find_best_match_exact_threshold_cex :
    (7 : ℚ) / 10 ≤ constCos ((fun s => s) "x") ((fun s => s) "Q0") ∧
      (∀ r ∈ ["Q0"], constCos ((fun s => s) "x") ((fun s => s) r) ≤ (7 : ℚ) / 10) ∧
      find_best_match (fun s => s) constCos ["Q0"] "x" = none := by
  refine ⟨le_refl _, ?_, ?_⟩
  · intro r _; exact le_refl _
  · simp [find_best_match, bestLoop, constCos]
    norm_num

/-- Claim C1, amended: for every query whose maximum cosine similarity
against the reference set strictly exceeds 0.7 (in particular a query
identical to a reference question under a model with self-similarity
1.0), `find_best_match` returns a best-matching reference question
rather than the no-match sentinel. -/
theorem find_best_match_strict_threshold {Emb : Type} (embed : String → Emb)
    (cos : Emb → Emb → ℚ) (qs : List String) (query q : String)
    (hq : q ∈ qs) (hgt : (7 : ℚ) / 10 < cos (embed query) (embed q)) :
    ∃ b, find_best_match embed cos qs query = some b ∧ b ∈ qs ∧
      ∀ r ∈ qs, cos (embed query) (embed r) ≤ cos (embed query) (embed b) := by
  rcases find_best_match_some_of_exists embed cos qs query ⟨q, hq, hgt⟩ with ⟨b, hb⟩
  rcases find_best_match_some_spec embed cos qs query b hb with ⟨hmem, _, hmax, _⟩
  exact ⟨b, hb, hmem, hmax⟩

/-- Witness for the amended claim C1 at a concrete self-match input. -/
theorem find_best_match_strict_threshold_witness :
    ("A" ∈ ["A", "B"] ∧ (7 : ℚ) / 10 < eqCos ((fun s => s) "A") ((fun s => s) "A")) ∧
      ∃ b, find_best_match (fun s => s) eqCos ["A", "B"] "A" = some b ∧ b ∈ ["A", "B"] ∧
        ∀ r ∈ ["A", "B"], eqCos ((fun s => s) "A") ((fun s => s) r) ≤ eqCos ((fun s => s) "A") ((fun s => s) b) :=
  ⟨⟨by decide, by norm_num [eqCos]⟩,
    find_best_match_strict_threshold (fun s => s) eqCos ["A", "B"] "A" "A" (by decide) (by norm_num [eqCos])⟩

/-- Witness for claim C2 at a concrete input. -/
theorem find_best_match_threshold_iff_witness :
    (["A"] ≠ ([] : List String)) ∧
      (((∃ q, find_best_match (fun s => s) eqCos ["A"] "A" = some q ∧ q ∈ ["A"] ∧
          ∀ r ∈ ["A"], eqCos ((fun s => s) "A") ((fun s => s) r) ≤ eqCos ((fun s => s) "A") ((fun s => s) q))
        ↔ ∃ r ∈ ["A"], (7 : ℚ) / 10 < eqCos ((fun s => s) "A") ((fun s => s) r))
      ∧ ((∀ r ∈ ["A"], eqCos ((fun s => s) "A") ((fun s => s) r) ≤ (7 : ℚ) / 10) →
          find_best_match (fun s => s) eqCos ["A"] "A" = none)) :=
  ⟨by decide, find_best_match_threshold_iff (fun s => s) eqCos ["A"] "A" (by decide)⟩

/-- Claim C3: whenever `find_best_match` returns a question, it attains
the maximum similarity and everything before it in load order scores
strictly less — so among equal maximal scores the earliest question
wins, later equal scores never displacing it. -/
theorem find_best_match_earliest_maximizer {Emb : Type} (embed : String → Emb)
    (cos : Emb → Emb → ℚ) (qs : List String) (query q : String)
    (h : find_best_match embed cos qs query = some q) :
    (∀ r ∈ qs, cos (embed query) (embed r) ≤ cos (embed query) (embed q)) ∧
      ∃ pre post, qs = pre ++ q :: post ∧
        ∀ p ∈ pre, cos (embed query) (embed p) < cos (embed query) (embed q) := by
  rcases find_best_match_some_spec embed cos qs query q h with ⟨_, _, hmax, hsplit⟩
  exact ⟨hmax, hsplit⟩

/-- Witness for claim C3: with both questions tied at similarity 4/5,
the first question in load order is returned. -/
theorem find_best_match_earliest_maximizer_witness :
    find_best_match (fun s => s) tieCos ["A", "B"] "x" = some "A" ∧
      ((∀ r ∈ ["A", "B"], tieCos ((fun s => s) "x") ((fun s => s) r) ≤ tieCos ((fun s => s) "x") ((fun s => s) "A")) ∧
        ∃ pre post, ["A", "B"] = pre ++ "A" :: post ∧
          ∀ p ∈ pre, tieCos ((fun s => s) "x") ((fun s => s) p) < tieCos ((fun s => s) "x") ((fun s => s) "A")) :=
  ⟨by simp [find_best_match, bestLoop, tieCos]; norm_num,
    find_best_match_earliest_maximizer (fun s => s) tieCos ["A", "B"] "x" "A"
      (by simp [find_best_match, bestLoop, tieCos]; norm_num)⟩

/-- Claim C4: the result of `find_best_match` is always either the
no-match sentinel `none` or `some` member of the reference set — never
a string outside the set. -/
theorem find_best_match_mem_or_none {Emb : Type} (embed : String → Emb)
    (cos : Emb → Emb → ℚ) (qs : List String) (query : String) :
    find_best_match embed cos qs query = none ∨
      ∃ q, q ∈ qs ∧ find_best_match embed cos qs query = some q := by
  cases hr : find_best_match embed cos qs query with
  | none => exact Or.inl rfl
  | some q =>
    exact Or.inr ⟨q, (find_best_match_some_spec embed cos qs query q hr).1, rfl⟩

/-- The external collaborators of the module: the values produced by
`AutoTokenizer.from_pretrained` and `AutoModel.from_pretrained`, the
content of `questions.json` (its `"questions"` list), the embedding
computation performed with a given tokenizer and model, and cosine
similarity on embeddings. -/
structure Collab (Tok Mod Emb : Type) where
  pretrainedTok : Tok
  pretrainedModel : Mod
  questionsFile : List String
  encode : Tok → Mod → String → Emb
  cosine : Emb → Emb → ℚ

/-- The module-level mutable state of `semantic_model.py`: the lazy
globals `_tokenizer`, `_model`, `_QUESTIONS`, instrumented with a
count of model-load events (the "Loading semantic model..." branch),
a count of `questions.json` reads, a count of cosine-similarity
computations, and a log of every text passed to `get_embedding`, in
call order. -/
structure ChatState (Tok Mod : Type) where
  tokenizer : Option Tok
  model : Option Mod
  questions : Option (List String)
  modelLoads : Nat
  questionLoads : Nat
  simCalls : Nat
  embedLog : List String

/-- The state at interpreter start: all three globals are `None` and no
events have happened. -/
def freshState {Tok Mod : Type} : ChatState Tok Mod :=
  ⟨none, none, none, 0, 0, 0, []⟩

/-- Embedding of `_load_model`: if `_tokenizer is None or _model is
None`, load both from the pretrained source (one load event), then
return the globals. -/
def load_model {Tok Mod Emb : Type} (C : Collab Tok Mod Emb) (s : ChatState Tok Mod) :
    (Tok × Mod) × ChatState Tok Mod :=
  match s.tokenizer, s.model with
  | some t, some m => ((t, m), s)
  | _, _ =>
    ((C.pretrainedTok, C.pretrainedModel),
      { s with tokenizer := some C.pretrainedTok, model := some C.pretrainedModel,
               modelLoads := s.modelLoads + 1 })

/-- Embedding of `_load_questions`: if `_QUESTIONS is None`, read
`questions.json` (one read event), then return the global. -/
def load_questions {Tok Mod Emb : Type} (C : Collab Tok Mod Emb) (s : ChatState Tok Mod) :
    List String × ChatState Tok Mod :=
  match s.questions with
  | some qs => (qs, s)
  | none =>
    (C.questionsFile,
      { s with questions := some C.questionsFile, questionLoads := s.questionLoads + 1 })

/-- Embedding of `get_embedding(text)` with explicit state: load the
model lazily, then encode the text with the (possibly cached)
tokenizer and model; the request is appended to the embedding log. -/
def get_embedding_st {Tok Mod Emb : Type} (C : Collab Tok Mod Emb) (text : String)
    (s : ChatState Tok Mod) : Emb × ChatState Tok Mod :=
  match load_model C s with
  | ((t, m), s1) => (C.encode t m text, { s1 with embedLog := s1.embedLog ++ [text] })

/-- Embedding of the question-scanning loop of `find_best_match` with
explicit state: each iteration embeds the question (a lazy model load
may happen on the very first embedding) and performs one
cosine-similarity computation. -/
def matchLoop {Tok Mod Emb : Type} (C : Collab Tok Mod Emb) (ue : Emb) :
    List String → Option String × ℚ → ChatState Tok Mod →
      (Option String × ℚ) × ChatState Tok Mod
  | [], acc, s => (acc, s)
  | q :: rest, acc, s =>
    let p := get_embedding_st C q s
    let s1 := { p.2 with simCalls := p.2.simCalls + 1 }
    let sim := C.cosine ue p.1
    if acc.2 < sim then matchLoop C ue rest (some q, sim) s1
    else matchLoop C ue rest acc s1

/-- Embedding of `find_best_match(user_query)` with explicit state:
load the questions lazily, embed the query, scan every question, and
return the best match only above the 0.7 threshold. -/
def find_best_match_st {Tok Mod Emb : Type} (C : Collab Tok Mod Emb) (user_query : String)
    (s : ChatState Tok Mod) : Option String × ChatState Tok Mod :=
  match load_questions C s with
  | (qs, s1) =>
    match get_embedding_st C user_query s1 with
    | (ue, s2) =>
      match matchLoop C ue qs (none, -1) s2 with
      | ((best, high), s3) => ((if (7 : ℚ) / 10 < high then best else none), s3)

/-- Running a sequence of `find_best_match` calls, threading the
module state through. -/
def runQueries {Tok Mod Emb : Type} (C : Collab Tok Mod Emb) :
    List String → ChatState Tok Mod → ChatState Tok Mod
  | [], s => s
  | q :: rest, s => runQueries C rest (find_best_match_st C q s).2

/-- With both globals cached, `_load_model` returns them and leaves the
state untouched. -/
theorem load_model_cached {Tok Mod Emb : Type} (C : Collab Tok Mod Emb) (t : Tok) (m : Mod)
    (s : ChatState Tok Mod) (h1 : s.tokenizer = some t) (h2 : s.model = some m) :
    load_model C s = ((t, m), s) := by
  simp [load_model, h1, h2]

/-- With both globals cached, `get_embedding` encodes with the cached
handles and only appends to the embedding log. -/
theorem get_embedding_st_cached {Tok Mod Emb : Type} (C : Collab Tok Mod Emb) (t : Tok) (m : Mod)
    (text : String) (s : ChatState Tok Mod) (h1 : s.tokenizer = some t) (h2 : s.model = some m) :
    get_embedding_st C text s =
      (C.encode t m text, { s with embedLog := s.embedLog ++ [text] }) := by
  simp [get_embedding_st, load_model_cached C t m s h1 h2]

/-- With the model cached, the scanning loop leaves every state field
unchanged except the embedding log (one entry per question, in order)
and the cosine-call counter (one call per question). -/
theorem matchLoop_state {Tok Mod Emb : Type} (C : Collab Tok Mod Emb) (ue : Emb) (t : Tok) (m : Mod) :
    ∀ (l : List String) (acc : Option String × ℚ) (s : ChatState Tok Mod),
      s.tokenizer = some t → s.model = some m →
      (matchLoop C ue l acc s).2 =
        { s with embedLog := s.embedLog ++ l, simCalls := s.simCalls + l.length } := by
  intro l
  induction l with
  | nil => intro acc s h1 h2; simp [matchLoop]
  | cons q rest ih =>
    intro acc s h1 h2
    rw [matchLoop]
    simp only [get_embedding_st_cached C t m q s h1 h2]
    by_cases hc : acc.2 < C.cosine ue (C.encode t m q)
    · rw [if_pos hc, ih]
      · simp [List.append_assoc]
        omega
      · exact h1
      · exact h2
    · rw [if_neg hc, ih]
      · simp [List.append_assoc]
        omega
      · exact h1
      · exact h2

/-- `_load_model` never touches the question global, the embedding log,
the question-load counter or the cosine counter. -/
theorem load_model_fields {Tok Mod Emb : Type} (C : Collab Tok Mod Emb) (s : ChatState Tok Mod) :
    (load_model C s).2.questions = s.questions ∧
      (load_model C s).2.embedLog = s.embedLog ∧
      (load_model C s).2.questionLoads = s.questionLoads ∧
      (load_model C s).2.simCalls = s.simCalls := by
  rcases h1 : s.tokenizer with _ | t <;> rcases h2 : s.model with _ | m <;>
    simp [load_model, h1, h2]

/-- `_load_questions` returns the cached list when present, else the
file content; it never touches the model globals, the embedding log,
the model-load counter or the cosine counter. -/
theorem load_questions_fields {Tok Mod Emb : Type} (C : Collab Tok Mod Emb) (s : ChatState Tok Mod) :
    (load_questions C s).1 = s.questions.getD C.questionsFile ∧
      (load_questions C s).2.tokenizer = s.tokenizer ∧
      (load_questions C s).2.model = s.model ∧
      (load_questions C s).2.embedLog = s.embedLog ∧
      (load_questions C s).2.modelLoads = s.modelLoads ∧
      (load_questions C s).2.simCalls = s.simCalls := by
  rcases h : s.questions with _ | qs <;> simp [load_questions, h]

/-- `get_embedding` appends exactly its argument to the embedding log. -/
theorem get_embedding_st_embedLog {Tok Mod Emb : Type} (C : Collab Tok Mod Emb) (text : String)
    (s : ChatState Tok Mod) :
    (get_embedding_st C text s).2.embedLog = s.embedLog ++ [text] := by
  rcases hm : load_model C s with ⟨⟨t, m⟩, s1⟩
  have hf := load_model_fields C s
  rw [hm] at hf
  simp only [Prod.snd] at hf
  simp [get_embedding_st, hm, hf.2.1]

/-- `get_embedding` never touches the question global, the
question-load counter or the cosine counter. -/
theorem get_embedding_st_fields {Tok Mod Emb : Type} (C : Collab Tok Mod Emb) (text : String)
    (s : ChatState Tok Mod) :
    (get_embedding_st C text s).2.questions = s.questions ∧
      (get_embedding_st C text s).2.questionLoads = s.questionLoads ∧
      (get_embedding_st C text s).2.simCalls = s.simCalls := by
  rcases hm : load_model C s with ⟨⟨t, m⟩, s1⟩
  have hf := load_model_fields C s
  rw [hm] at hf
  simp only [Prod.snd] at hf
  simp [get_embedding_st, hm, hf.1, hf.2.2.1, hf.2.2.2]

/-- The scanning loop appends exactly the scanned questions, in order,
to the embedding log. -/
theorem matchLoop_embedLog {Tok Mod Emb : Type} (C : Collab Tok Mod Emb) (ue : Emb) :
    ∀ (l : List String) (acc : Option String × ℚ) (s : ChatState Tok Mod),
      (matchLoop C ue l acc s).2.embedLog = s.embedLog ++ l := by
  intro l
  induction l with
  | nil => intro acc s; simp [matchLoop]
  | cons q rest ih =>
    intro acc s
    simp only [matchLoop]
    split
    · rw [ih]
      simp [get_embedding_st_embedLog]
    · rw [ih]
      simp [get_embedding_st_embedLog]

/-- `find_best_match` appends the query and then every question of the
set it scans (the cached set, or the file content on first use) to the
embedding log, in that order. -/
theorem find_best_match_st_embedLog {Tok Mod Emb : Type} (C : Collab Tok Mod Emb)
    (query : String) (s : ChatState Tok Mod) :
    (find_best_match_st C query s).2.embedLog =
      s.embedLog ++ query :: (s.questions.getD C.questionsFile) := by
  rcases hq : load_questions C s with ⟨qs, s1⟩
  rcases he : get_embedding_st C query s1 with ⟨ue, s2⟩
  rcases hl : matchLoop C ue qs (none, -1) s2 with ⟨⟨best, high⟩, s3⟩
  have h3 : s3.embedLog = s2.embedLog ++ qs := by
    have := matchLoop_embedLog C ue qs (none, -1) s2
    rwa [hl] at this
  have h2 : s2.embedLog = s1.embedLog ++ [query] := by
    have := get_embedding_st_embedLog C query s1
    rwa [he] at this
  have hf := load_questions_fields C s
  rw [hq] at hf
  simp only [Prod.snd, Prod.fst] at hf
  rw [← hf.1]
  simp [find_best_match_st, hq, he, hl, h3, h2, hf.2.2.2.1]

/-- After initialisation (all three globals cached), a `find_best_match`
call changes nothing in the state except the embedding log and the
cosine counter: in particular no further load events happen and the
cached handles stay in place. -/
theorem find_best_match_st_cached {Tok Mod Emb : Type} (C : Collab Tok Mod Emb) (t : Tok)
    (m : Mod) (query : String) (qs : List String) (s : ChatState Tok Mod)
    (h1 : s.tokenizer = some t) (h2 : s.model = some m) (h3 : s.questions = some qs) :
    (find_best_match_st C query s).2 =
      { s with embedLog := s.embedLog ++ query :: qs, simCalls := s.simCalls + qs.length } := by
  have hq : load_questions C s = (qs, s) := by simp [load_questions, h3]
  have he := get_embedding_st_cached C t m query s h1 h2
  rcases hl : matchLoop C (C.encode t m query) qs (none, -1)
      ({ s with embedLog := s.embedLog ++ [query] }) with ⟨⟨best, high⟩, s3⟩
  have h3' : s3 = { s with embedLog := (s.embedLog ++ [query]) ++ qs,
                           simCalls := s.simCalls + qs.length } := by
    have := matchLoop_state C (C.encode t m query) t m qs (none, -1)
      ({ s with embedLog := s.embedLog ++ [query] }) h1 h2
    rw [hl] at this
    simpa using this
  simp [find_best_match_st, hq, he, hl, h3']

/-- The very first `find_best_match` call of the process performs
exactly one question-file read and one model load, caches all three
globals, embeds the query and then every question, and performs one
cosine computation per question. -/
theorem find_best_match_st_fresh {Tok Mod Emb : Type} (C : Collab Tok Mod Emb) (query : String) :
    (find_best_match_st C query (freshState : ChatState Tok Mod)).2 =
      ⟨some C.pretrainedTok, some C.pretrainedModel, some C.questionsFile, 1, 1,
        C.questionsFile.length, query :: C.questionsFile⟩ := by
  have hq : load_questions C (freshState : ChatState Tok Mod) =
      (C.questionsFile, ⟨none, none, some C.questionsFile, 0, 1, 0, []⟩) := by
    simp [load_questions, freshState]
  have he : get_embedding_st C query (⟨none, none, some C.questionsFile, 0, 1, 0, []⟩ :
      ChatState Tok Mod) =
      (C.encode C.pretrainedTok C.pretrainedModel query,
        ⟨some C.pretrainedTok, some C.pretrainedModel, some C.questionsFile, 1, 1, 0, [query]⟩) := by
    simp [get_embedding_st, load_model]
  rcases hl : matchLoop C (C.encode C.pretrainedTok C.pretrainedModel query) C.questionsFile
      (none, -1) (⟨some C.pretrainedTok, some C.pretrainedModel, some C.questionsFile, 1, 1, 0,
        [query]⟩ : ChatState Tok Mod) with ⟨⟨best, high⟩, s3⟩
  have h3' : s3 = ⟨some C.pretrainedTok, some C.pretrainedModel, some C.questionsFile, 1, 1,
      C.questionsFile.length, query :: C.questionsFile⟩ := by
    have := matchLoop_state C (C.encode C.pretrainedTok C.pretrainedModel query) C.pretrainedTok
      C.pretrainedModel C.questionsFile (none, -1)
      (⟨some C.pretrainedTok, some C.pretrainedModel, some C.questionsFile, 1, 1, 0, [query]⟩ :
        ChatState Tok Mod) rfl rfl
    rw [hl] at this
    simpa using this
  simp [find_best_match_st, hq, he, hl, h3']

/-- Once the globals are cached, any sequence of `find_best_match`
calls leaves the cached handles in place and performs no further load
events. -/
theorem runQueries_fields {Tok Mod Emb : Type} (C : Collab Tok Mod Emb) (t : Tok) (m : Mod)
    (qs : List String) :
    ∀ (l : List String) (s : ChatState Tok Mod),
      s.tokenizer = some t → s.model = some m → s.questions = some qs →
      (runQueries C l s).tokenizer = some t ∧ (runQueries C l s).model = some m ∧
        (runQueries C l s).questions = some qs ∧
        (runQueries C l s).modelLoads = s.modelLoads ∧
        (runQueries C l s).questionLoads = s.questionLoads := by
  intro l
  induction l with
  | nil => intro s h1 h2 h3; exact ⟨h1, h2, h3, rfl, rfl⟩
  | cons q rest ih =>
    intro s h1 h2 h3
    rw [runQueries, find_best_match_st_cached C t m q qs s h1 h2 h3]
    exact ih _ h1 h2 h3

/-- With the model cached, the scanning loop computes exactly the pure
accumulator loop on the similarity function induced by the cached
handles. -/
theorem matchLoop_fst {Tok Mod Emb : Type} (C : Collab Tok Mod Emb) (ue : Emb) (t : Tok) (m : Mod) :
    ∀ (l : List String) (acc : Option String × ℚ) (s : ChatState Tok Mod),
      s.tokenizer = some t → s.model = some m →
      (matchLoop C ue l acc s).1 =
        bestLoop (fun q => C.cosine ue (C.encode t m q)) l acc.1 acc.2 := by
  intro l
  induction l with
  | nil => intro acc s h1 h2; simp [matchLoop, bestLoop]
  | cons q rest ih =>
    intro acc s h1 h2
    rw [matchLoop, bestLoop]
    simp only [get_embedding_st_cached C t m q s h1 h2]
    by_cases hc : acc.2 < C.cosine ue (C.encode t m q)
    · rw [if_pos hc, if_pos hc, ih]
      · exact h1
      · exact h2
    · rw [if_neg hc, if_neg hc, ih]
      · exact h1
      · exact h2

/-- After initialisation, the result of the stateful `find_best_match`
is exactly the pure `find_best_match` over the cached question set,
with the embedding function induced by the cached handles: the pure
model used by the threshold/order theorems is faithful to the stateful
code. -/
theorem find_best_match_st_agrees {Tok Mod Emb : Type} (C : Collab Tok Mod Emb) (t : Tok)
    (m : Mod) (qs : List String) (query : String) (s : ChatState Tok Mod)
    (h1 : s.tokenizer = some t) (h2 : s.model = some m) (h3 : s.questions = some qs) :
    (find_best_match_st C query s).1 = find_best_match (C.encode t m) C.cosine qs query := by
  have hq : load_questions C s = (qs, s) := by simp [load_questions, h3]
  have he := get_embedding_st_cached C t m query s h1 h2
  rcases hl : matchLoop C (C.encode t m query) qs (none, -1)
      ({ s with embedLog := s.embedLog ++ [query] }) with ⟨⟨best, high⟩, s3⟩
  have hbl : (best, high) = bestLoop (fun q => C.cosine (C.encode t m query) (C.encode t m q))
      qs none (-1) := by
    have := matchLoop_fst C (C.encode t m query) t m qs (none, -1)
      ({ s with embedLog := s.embedLog ++ [query] }) h1 h2
    rw [hl] at this
    exact this
  rw [find_best_match_eq, ← hbl]
  simp [find_best_match_st, hq, he, hl]

/-- Claim C5: with the loaded reference set empty, every
`find_best_match` call returns the no-match sentinel and performs no
cosine-similarity computation; the same holds on a fresh process whose
question file holds an empty list. -/
theorem find_best_match_st_empty_questions {Tok Mod Emb : Type} (C : Collab Tok Mod Emb)
    (query : String) :
    (∀ s : ChatState Tok Mod, s.questions = some [] →
      (find_best_match_st C query s).1 = none ∧
        (find_best_match_st C query s).2.simCalls = s.simCalls)
    ∧ (C.questionsFile = [] →
      (find_best_match_st C query (freshState : ChatState Tok Mod)).1 = none ∧
        (find_best_match_st C query (freshState : ChatState Tok Mod)).2.simCalls = 0) := by
  have hnot : ¬ ((7 : ℚ) / 10 < -1) := by norm_num
  constructor
  · intro s hs
    have hq : load_questions C s = ([], s) := by simp [load_questions, hs]
    rcases he : get_embedding_st C query s with ⟨ue, s2⟩
    have hfield := get_embedding_st_fields C query s
    rw [he] at hfield
    simp only [Prod.snd] at hfield
    constructor
    · simp [find_best_match_st, hq, he, matchLoop, hnot]
    · simp [find_best_match_st, hq, he, matchLoop, hfield.2.2]
  · intro hC
    constructor <;>
      simp [find_best_match_st, load_questions, freshState, hC, get_embedding_st, load_model,
        matchLoop, hnot]

/-- Claim C6: starting from a fresh process, any non-empty sequence of
`find_best_match` calls performs exactly one model/tokenizer
initialisation and exactly one question-file read — both on the first
call — and every later call reuses the cached handles, which remain
the values produced by that single load. -/
theorem find_best_match_st_single_initialization {Tok Mod Emb : Type} (C : Collab Tok Mod Emb)
    (queries : List String) (hne : queries ≠ []) :
    (runQueries C queries freshState).modelLoads = 1 ∧
      (runQueries C queries freshState).questionLoads = 1 ∧
      (runQueries C queries freshState).tokenizer = some C.pretrainedTok ∧
      (runQueries C queries freshState).model = some C.pretrainedModel ∧
      (runQueries C queries freshState).questions = some C.questionsFile := by
  rcases queries with _ | ⟨q, rest⟩
  · exact absurd rfl hne
  · rw [runQueries, find_best_match_st_fresh]
    rcases runQueries_fields C C.pretrainedTok C.pretrainedModel C.questionsFile rest
      (⟨some C.pretrainedTok, some C.pretrainedModel, some C.questionsFile, 1, 1,
        C.questionsFile.length, q :: C.questionsFile⟩ : ChatState Tok Mod) rfl rfl rfl with
      ⟨a, b, c, d, e⟩
    exact ⟨d, e, a, b, c⟩

/-- Claim C9: within one process, two consecutive `get_embedding` calls
on the same text return equal vectors, whatever the initialisation
state at the first call. -/
theorem get_embedding_st_deterministic {Tok Mod Emb : Type} (C : Collab Tok Mod Emb)
    (text : String) (s : ChatState Tok Mod) :
    (get_embedding_st C text s).1 =
      (get_embedding_st C text (get_embedding_st C text s).2).1 := by
  rcases h1 : s.tokenizer with _ | t <;> rcases h2 : s.model with _ | m <;>
    simp [get_embedding_st, load_model, h1, h2]

/-- Claim C10: every `find_best_match` call embeds the query first —
the embedding log grows by the query and only then by the scanned
questions, so `get_embedding` runs on the query exactly once before
any reference question — and even with an empty question file a fresh
call performs the lazy question-file read and the lazy model load. -/
theorem find_best_match_st_embeds_query_first {Tok Mod Emb : Type} (C : Collab Tok Mod Emb) :
    (∀ (s : ChatState Tok Mod) (query : String),
      (find_best_match_st C query s).2.embedLog =
        s.embedLog ++ query :: (s.questions.getD C.questionsFile))
    ∧ (C.questionsFile = [] → ∀ query : String,
      (find_best_match_st C query (freshState : ChatState Tok Mod)).2.modelLoads = 1 ∧
        (find_best_match_st C query (freshState : ChatState Tok Mod)).2.questionLoads = 1 ∧
        (find_best_match_st C query (freshState : ChatState Tok Mod)).2.embedLog = [query]) := by
  constructor
  · exact fun s query => find_best_match_st_embedLog C query s
  · intro hC query
    refine ⟨?_, ?_, ?_⟩ <;> (rw [find_best_match_st_fresh]; try simp [hC])

/-- A concrete collaborator bundle with an empty question file. -/
def emptyCollab : Collab Nat Nat ℚ := ⟨0, 0, [], fun _ _ _ => 0, fun _ _ => 0⟩

/-- A concrete collaborator bundle with one reference question. -/
def oneCollab : Collab Nat Nat ℚ := ⟨0, 0, ["A"], fun _ _ _ => 0, fun _ _ => 0⟩

/-- A concrete state whose cached question set is empty. -/
def loadedEmptyState : ChatState Nat Nat := ⟨some 0, some 0, some [], 3, 4, 5, []⟩

/-- Witness for claim C5 at a concrete loaded-empty state and a
concrete fresh process. -/
theorem find_best_match_st_empty_questions_witness :
    (loadedEmptyState.questions = some [] ∧
      ((find_best_match_st emptyCollab "campus" loadedEmptyState).1 = none ∧
        (find_best_match_st emptyCollab "campus" loadedEmptyState).2.simCalls =
          loadedEmptyState.simCalls)) ∧
      (emptyCollab.questionsFile = [] ∧
        ((find_best_match_st emptyCollab "campus" (freshState : ChatState Nat Nat)).1 = none ∧
          (find_best_match_st emptyCollab "campus" (freshState : ChatState Nat Nat)).2.simCalls = 0)) :=
  ⟨⟨rfl, (find_best_match_st_empty_questions emptyCollab "campus").1 loadedEmptyState rfl⟩,
    ⟨rfl, (find_best_match_st_empty_questions emptyCollab "campus").2 rfl⟩⟩

/-- Witness for claim C6 with two queries against one question. -/
theorem find_best_match_st_single_initialization_witness :
    (["where is the library", "top places"] ≠ ([] : List String)) ∧
      ((runQueries oneCollab ["where is the library", "top places"] freshState).modelLoads = 1 ∧
        (runQueries oneCollab ["where is the library", "top places"] freshState).questionLoads = 1 ∧
        (runQueries oneCollab ["where is the library", "top places"] freshState).tokenizer =
          some oneCollab.pretrainedTok ∧
        (runQueries oneCollab ["where is the library", "top places"] freshState).model =
          some oneCollab.pretrainedModel ∧
        (runQueries oneCollab ["where is the library", "top places"] freshState).questions =
          some oneCollab.questionsFile) :=
  ⟨by decide,
    find_best_match_st_single_initialization oneCollab ["where is the library", "top places"]
      (by decide)⟩

/-- Witness for claim C10 at a concrete empty question file. -/
theorem find_best_match_st_embeds_query_first_witness :
    (emptyCollab.questionsFile = []) ∧
      ((find_best_match_st emptyCollab "hi" (freshState : ChatState Nat Nat)).2.modelLoads = 1 ∧
        (find_best_match_st emptyCollab "hi" (freshState : ChatState Nat Nat)).2.questionLoads = 1 ∧
        (find_best_match_st emptyCollab "hi" (freshState : ChatState Nat Nat)).2.embedLog = ["hi"]) :=
  ⟨rfl, (find_best_match_st_embeds_query_first emptyCollab).2 rfl "hi"⟩

/-- The scanning loop over fallible embedding requests: the module has
no `try`/`except`, so the first embedding failure aborts the loop and
propagates. -/
def excLoop {Err Emb : Type} (embed : String → Except Err Emb) (cos : Emb → Emb → ℚ)
    (ue : Emb) : List String → Option String → ℚ → Except Err (Option String × ℚ)
  | [], best, high => .ok (best, high)
  | q :: rest, best, high =>
    match embed q with
    | .error e => .error e
    | .ok qe =>
      if high < cos ue qe then excLoop embed cos ue rest (some q) (cos ue qe)
      else excLoop embed cos ue rest best high

/-- Embedding of `find_best_match` over fallible collaborators: a
failing question-file read, a failing query embedding, or a failing
reference embedding each aborts the call, with no recovery and no
substituted default. -/
def find_best_match_exc {Err Emb : Type} (loadQ : Except Err (List String))
    (embed : String → Except Err Emb) (cos : Emb → Emb → ℚ) (query : String) :
    Except Err (Option String) :=
  match loadQ with
  | .error e => .error e
  | .ok qs =>
    match embed query with
    | .error e => .error e
    | .ok ue =>
      match excLoop embed cos ue qs none (-1) with
      | .error e => .error e
      | .ok (best, high) => .ok (if (7 : ℚ) / 10 < high then best else none)

/-- If any scanned question's embedding fails, the loop fails. -/
theorem excLoop_error {Err Emb : Type} (embed : String → Except Err Emb) (cos : Emb → Emb → ℚ)
    (ue : Emb) :
    ∀ (l : List String) (best : Option String) (high : ℚ),
      (∃ r ∈ l, ∃ e, embed r = .error e) →
      ∃ e, excLoop embed cos ue l best high = .error e := by
  intro l
  induction l with
  | nil => intro best high h; rcases h with ⟨r, hr, _⟩; cases hr
  | cons q rest ih =>
    intro best high h
    rcases hq : embed q with e | qe
    · exact ⟨e, by simp [excLoop, hq]⟩
    · have hrest : ∃ r ∈ rest, ∃ e, embed r = .error e := by
        rcases h with ⟨r, hr, e, he⟩
        rcases List.mem_cons.mp hr with rfl | hr'
        · rw [hq] at he; cases he
        · exact ⟨r, hr', e, he⟩
      simp only [excLoop, hq]
      by_cases hc : high < cos ue qe
      · rw [if_pos hc]; exact ih (some q) (cos ue qe) hrest
      · rw [if_neg hc]; exact ih best high hrest

/-- Claim C7: `find_best_match` performs no local error recovery: a
failure while loading the question file propagates unchanged, a failure
while embedding the query propagates unchanged, and a failure while
embedding any reference question makes the whole call fail — never a
default or best-guess match. -/
theorem find_best_match_exc_propagates {Err Emb : Type} (loadQ : Except Err (List String))
    (embed : String → Except Err Emb) (cos : Emb → Emb → ℚ) (query : String) :
    (∀ e, loadQ = .error e → find_best_match_exc loadQ embed cos query = .error e)
    ∧ (∀ qs e, loadQ = .ok qs → embed query = .error e →
        find_best_match_exc loadQ embed cos query = .error e)
    ∧ (∀ qs ue, loadQ = .ok qs → embed query = .ok ue →
        (∃ r ∈ qs, ∃ e, embed r = .error e) →
        ∃ e, find_best_match_exc loadQ embed cos query = .error e) := by
  refine ⟨?_, ?_, ?_⟩
  · intro e he
    simp [find_best_match_exc, he]
  · intro qs e hqs he
    simp [find_best_match_exc, hqs, he]
  · intro qs ue hqs hue hex
    rcases excLoop_error embed cos ue qs none (-1) hex with ⟨e, hloop⟩
    refine ⟨e, ?_⟩
    simp [find_best_match_exc, hqs, hue, hloop]

/-- A fallible embedding collaborator failing on one specific text. -/
def failEmbed : String → Except String ℚ :=
  fun s => if s = "bad" then .error "EncodingError" else .ok 0

/-- Witness for claim C7: a failing file read propagates, and so does a
failing reference-question embedding. -/
theorem find_best_match_exc_propagates_witness :
    ((Except.error "ConfigurationError" :
        Except String (List String)) = .error "ConfigurationError" ∧
      find_best_match_exc (Except.error "ConfigurationError") failEmbed
        (fun a b : ℚ => a * b) "q" = .error "ConfigurationError") ∧
      ((Except.ok ["good", "bad"] : Except String (List String)) = .ok ["good", "bad"] ∧
        failEmbed "q" = .ok 0 ∧ (∃ r ∈ ["good", "bad"], ∃ e, failEmbed r = .error e) ∧
        ∃ e, find_best_match_exc (Except.ok ["good", "bad"]) failEmbed
          (fun a b : ℚ => a * b) "q" = .error e) :=
  ⟨⟨rfl,
      (find_best_match_exc_propagates (Except.error "ConfigurationError") failEmbed
        (fun a b : ℚ => a * b) "q").1 "ConfigurationError" rfl⟩,
    ⟨rfl, by simp [failEmbed], ⟨"bad", by simp, "EncodingError", by simp [failEmbed]⟩,
      (find_best_match_exc_propagates (Except.ok ["good", "bad"]) failEmbed
        (fun a b : ℚ => a * b) "q").2.2 ["good", "bad"] 0 rfl (by simp [failEmbed])
        ⟨"bad", by simp, "EncodingError", by simp [failEmbed]⟩⟩⟩

/-- Torch gradient-tracking mode; `with torch.no_grad()` runs the model
under `disabled`, so no weight update can occur. -/
inductive GradMode
  | enabled
  | disabled

/-- Mean pooling over the sequence dimension: the embedding of
`output.last_hidden_state.mean(dim=1)` on a `(1, seq, hidden)` tensor,
with the per-token hidden states given as a list of rows. Component
`d` of the result is the average over all token rows of component `d`. -/
def meanPool : List (List ℚ) → List ℚ
  | [] => []
  | v :: rest =>
    (List.range v.length).map
      (fun d => (((v :: rest).map (fun row => row.getD d 0)).sum) / ((v :: rest).length : ℚ))

/-- Embedding of `get_embedding(text)`: tokenize the text, run the
model on the tokens under no-gradient mode, and mean-pool the
per-token hidden states into one fixed-length vector. -/
def get_embedding {Token : Type} (tokenizer : String → List Token)
    (model : GradMode → List Token → List (List ℚ)) (text : String) : List ℚ :=
  meanPool (model GradMode.disabled (tokenizer text))

/-- Claim C8: `get_embedding` tokenizes the text, runs the model in
no-gradient mode, and reduces the per-token output to one fixed-length
vector by mean pooling over the sequence dimension: the result has the
model's hidden width, and each component is the arithmetic mean of
that component across tokens. -/
theorem get_embedding_mean_pooling {Token : Type} (tokenizer : String → List Token)
    (model : GradMode → List Token → List (List ℚ)) (text : String) (n d : Nat)
    (hne : model GradMode.disabled (tokenizer text) ≠ [])
    (hrect : ∀ row ∈ model GradMode.disabled (tokenizer text), row.length = n)
    (hd : d < n) :
    get_embedding tokenizer model text = meanPool (model GradMode.disabled (tokenizer text)) ∧
      (get_embedding tokenizer model text).length = n ∧
      (get_embedding tokenizer model text).getD d 0 =
        ((model GradMode.disabled (tokenizer text)).map (fun row => row.getD d 0)).sum /
          ((model GradMode.disabled (tokenizer text)).length : ℚ) := by
  refine ⟨rfl, ?_, ?_⟩
  · rcases hh : model GradMode.disabled (tokenizer text) with _ | ⟨v, rest⟩
    · exact absurd hh hne
    · have hv : v.length = n := hrect v (hh ▸ List.mem_cons_self v rest)
      simp [get_embedding, hh, meanPool, hv]
  · rcases hh : model GradMode.disabled (tokenizer text) with _ | ⟨v, rest⟩
    · exact absurd hh hne
    · have hv : v.length = n := hrect v (hh ▸ List.mem_cons_self v rest)
      have hdv : d < v.length := by omega
      simp only [get_embedding, hh, meanPool]
      rw [List.getD_eq_getElem?_getD]
      simp [List.getElem?_range hdv]

/-- A concrete tokenizer collaborator. -/
def wTok : String → List Nat := fun _ => [0]

/-- A concrete model collaborator producing two token rows of width 2. -/
def wModel : GradMode → List Nat → List (List ℚ) := fun _ _ => [[1, 2], [3, 4]]

/-- Witness for claim C8 on a concrete two-token, width-2 model. -/
theorem get_embedding_mean_pooling_witness :
    (wModel GradMode.disabled (wTok "x") ≠ [] ∧
      (∀ row ∈ wModel GradMode.disabled (wTok "x"), row.length = 2) ∧ 0 < 2) ∧
      (get_embedding wTok wModel "x" = meanPool (wModel GradMode.disabled (wTok "x")) ∧
        (get_embedding wTok wModel "x").length = 2 ∧
        (get_embedding wTok wModel "x").getD 0 0 =
          ((wModel GradMode.disabled (wTok "x")).map (fun row => row.getD 0 0)).sum /
            ((wModel GradMode.disabled (wTok "x")).length : ℚ)) :=
  ⟨⟨by simp [wModel], by intro row hr; simp [wModel] at hr; rcases hr with rfl | rfl <;> rfl,
      by norm_num⟩,
    get_embedding_mean_pooling wTok wModel "x" 2 0 (by simp [wModel])
      (by intro row hr; simp [wModel] at hr; rcases hr with rfl | rfl <;> rfl) (by norm_num)⟩

end SemanticModel
